import Mathlib

/-!
Verification of the workspace symbol index and query engine together with the
`symbols` CLI command (`crates/ruff/src/commands/symbols.rs`).

The command front end (`symbols.rs`) is embedded directly from the source.
The core it drives (syntax extractor, per-file symbol table, project symbol
store, workspace query engine, living in the `ty_ide` / `ty_project` crates)
is not part of the sources under review, so those components are modelled
from the specification, as stated on each definition.
-/

/-- Modelled from the spec (section 3, the `ty_ide` symbol kinds are not part of
the reviewed sources): closed enumeration of symbol kinds. -/
inductive SymbolKind where
  | function
  | method
  | classK
  | module
  | variableK
  | constant
  deriving DecidableEq

/-- Modelled from the spec (section 3): one definition site.  `rangeStart` and
`rangeEnd` are the offset pair of the record's source range. -/
structure SymbolRecord where
  name : String
  kind : SymbolKind
  rangeStart : Nat
  rangeEnd : Nat
  deriving DecidableEq

/-- Modelled from the spec (section 4.1, the parser of the extractor is not part
of the reviewed sources): the tolerant syntax tree of one file, in
first-child / next-sibling form.  A `defNode` is a definition-introducing
construct carrying its identifier, kind and source range; an `otherNode` is any
other construct that may still contain definitions. -/
inductive SyntaxTree where
  | nil
  | defNode (name : String) (kind : SymbolKind) (rangeStart rangeEnd : Nat)
      (children : SyntaxTree) (next : SyntaxTree)
  | otherNode (children : SyntaxTree) (next : SyntaxTree)
  deriving DecidableEq

/-- Modelled from the spec (section 4.1): depth-first pre-order walk emitting
one `SymbolRecord` per definition node, in source order. -/
def extractNodes : SyntaxTree → List SymbolRecord
  | SyntaxTree.nil => []
  | SyntaxTree.defNode n k s e cs next =>
      ⟨n, k, s, e⟩ :: (extractNodes cs ++ extractNodes next)
  | SyntaxTree.otherNode cs next => extractNodes cs ++ extractNodes next

/-- Number of definition nodes anywhere in the tree. -/
def countDefs : SyntaxTree → Nat
  | SyntaxTree.nil => 0
  | SyntaxTree.defNode _ _ _ _ cs next => 1 + countDefs cs + countDefs next
  | SyntaxTree.otherNode cs next => countDefs cs + countDefs next

/-- Number of top-level definitions: definition nodes reachable without passing
through another definition's children. -/
def countTop : SyntaxTree → Nat
  | SyntaxTree.nil => 0
  | SyntaxTree.defNode _ _ _ _ _ next => 1 + countTop next
  | SyntaxTree.otherNode cs next => countTop cs + countTop next

/-- Number of nested definitions: definition nodes lying inside the children of
some definition node. -/
def countNested : SyntaxTree → Nat
  | SyntaxTree.nil => 0
  | SyntaxTree.defNode _ _ _ _ cs next => countDefs cs + countNested next
  | SyntaxTree.otherNode cs next => countNested cs + countNested next

/-- Modelled from the spec (sections 3 and 4.1): well-formedness of a parse tree
for a file of `len` content units, which the parser guarantees for its output:
every definition node carries a non-empty identifier and a source range inside
the bounds of the file content. -/
def wfTree (len : Nat) : SyntaxTree → Bool
  | SyntaxTree.nil => true
  | SyntaxTree.defNode n _ s e cs next =>
      !n.isEmpty && decide (s ≤ e) && decide (e ≤ len) && wfTree len cs && wfTree len next
  | SyntaxTree.otherNode cs next => wfTree len cs && wfTree len next

/-- Modelled from the spec (sections 4.1 and 7): the content of one file as the
core sees it, namely its length together with the tolerant parse tree salvaged
from it (empty on a total parse failure). -/
structure ParsedSource where
  len : Nat
  tree : SyntaxTree
  deriving DecidableEq

/-- Modelled from the spec (section 6, the filesystem abstraction is external):
the File Source contract.  `files` is the enumeration of file ids under the
root, `read` yields a file's (parsed) content or fails, `rev` is the opaque
revision token of a file. -/
structure FileSource where
  files : List String
  read : String → Option ParsedSource
  rev : String → Nat

/-- Modelled from the spec (section 3): per-file cache entry. -/
structure FileSymbols where
  file_id : String
  revision : Nat
  symbols : List SymbolRecord
  deriving DecidableEq

/-- Modelled from the spec (section 3): the workspace-wide collection, its
`files` an association list from file id to cache entry. -/
structure ProjectSymbolStore where
  root : String
  files : List (String × FileSymbols)
  deriving DecidableEq

/-- Lookup of a cache entry by file id. -/
def lookupFile : List (String × FileSymbols) → String → Option FileSymbols
  | [], _ => none
  | e :: rest, fid => if e.1 = fid then some e.2 else lookupFile rest fid

/-- Wholesale replacement (or insertion) of a cache entry. -/
def replaceEntry : List (String × FileSymbols) → String → FileSymbols →
    List (String × FileSymbols)
  | [], fid, fs => [(fid, fs)]
  | e :: rest, fid, fs =>
      if e.1 = fid then (fid, fs) :: rest else e :: replaceEntry rest fid fs

/-- Modelled from the spec (sections 4.1, 4.2 and 7): read a file and run the
syntax extractor on it, producing a fresh cache entry stamped with the file's
current revision.  A file access failure contributes zero symbols and is not
fatal; a parse failure already yields a partial (possibly empty) tree. -/
def extractEntry (src : FileSource) (fid : String) : FileSymbols :=
  ⟨fid, src.rev fid,
    match src.read fid with
    | none => []
    | some content => extractNodes content.tree⟩

/-- Modelled from the spec (section 4.2): return the cached entry unchanged when
its revision matches the File Source's current revision; otherwise re-read,
re-extract and replace the entry wholesale.  The boolean records whether an
extraction happened (the spec's extraction counter). -/
def get_or_refresh (src : FileSource) (st : ProjectSymbolStore) (fid : String) :
    (FileSymbols × Bool) × ProjectSymbolStore :=
  match lookupFile st.files fid with
  | some fs =>
      if fs.revision = src.rev fid then ((fs, false), st)
      else ((extractEntry src fid, true),
        ⟨st.root, replaceEntry st.files fid (extractEntry src fid)⟩)
  | none => ((extractEntry src fid, true),
      ⟨st.root, replaceEntry st.files fid (extractEntry src fid)⟩)

/-- Modelled from the spec (section 4.3): re-enumerate the files and evict cache
entries for files no longer present, leaving the remaining entries untouched. -/
def refresh (src : FileSource) (st : ProjectSymbolStore) : ProjectSymbolStore :=
  ⟨st.root, st.files.filter (fun e => src.files.contains e.1)⟩

/-- Case-sensitive substring containment on character lists: does `hay` contain
`needle` as a contiguous run? -/
def strContains : List Char → List Char → Bool
  | [], needle => needle.isEmpty
  | c :: t, needle => needle.isPrefixOf (c :: t) || strContains t needle

/-- Modelled from the spec (section 4.4, matching policy): a record matches the
query text iff the text is empty or the record's name contains it as a
case-sensitive substring. -/
def rmatches (r : SymbolRecord) (text : String) : Bool :=
  text.data.isEmpty || strContains r.name.data text.data

/-- Modelled from the spec (section 3): one matched symbol with its owning
file. -/
structure QueryResult where
  file_id : String
  symbol : SymbolRecord
  deriving DecidableEq

/-- Modelled from the spec (section 4.4, step 3): the stable deterministic file
ordering, lexicographic on normalized paths. -/
def sortedFileIds (src : FileSource) : List String :=
  List.insertionSort (fun a b : String => a ≤ b) src.files.dedup

/-- Modelled from the spec (section 4.4): visit each file in order, refresh its
entry lazily, and append the matches found in it, in source order. -/
def scanFiles (src : FileSource) (text : String) :
    List String → ProjectSymbolStore → List QueryResult × ProjectSymbolStore
  | [], st => ([], st)
  | fid :: rest, st =>
      let gr := get_or_refresh src st fid
      let tail := scanFiles src text rest gr.2
      ((((gr.1.1).symbols.filter (fun r => rmatches r text)).map
          (fun r => ⟨fid, r⟩)) ++ tail.1, tail.2)

/-- Modelled from the spec (section 4.4): the workspace query engine.  Refresh
the store, then scan all files in the deterministic ordering. -/
def query (src : FileSource) (st : ProjectSymbolStore) (text : String) :
    List QueryResult × ProjectSymbolStore :=
  scanFiles src text (sortedFileIds src) (refresh src st)

/-- The matches contributed by one file, computed against a fixed store. -/
def contribution (src : FileSource) (st : ProjectSymbolStore) (text : String)
    (fid : String) : List QueryResult :=
  (((get_or_refresh src st fid).1.1).symbols.filter (fun r => rmatches r text)).map
    (fun r => ⟨fid, r⟩)

/-- The symbol records the engine currently associates with a file. -/
def currentSymbols (src : FileSource) (st : ProjectSymbolStore) (fid : String) :
    List SymbolRecord :=
  ((get_or_refresh src st fid).1.1).symbols

/-- Concatenation of the lists produced by `f` over a list, in order. -/
def concatMap {α β : Type} (f : α → List β) : List α → List β
  | [] => []
  | a :: l => f a ++ concatMap f l

/-- Modelled from the spec (section 6, `SymbolsArgs` is declared in the
unreviewed `args.rs`): the CLI arguments of the symbols command, carrying the
query string the front end is to supply, absent when the user gave none. -/
structure SymbolsArgs where
  query : Option String
  deriving DecidableEq

/-- Modelled from the spec (section 6): the query text the CLI arguments carry,
with the documented default (empty string, meaning all symbols) when absent. -/
def cliQueryText (cli : SymbolsArgs) : String :=
  cli.query.getD ("")

/-- The query text `symbols.rs` actually hands to `ty_ide::workspace_symbols`:
the string literal of line 27 of the source, for any value of the (unused)
`_cli` argument. -/
def symbolsQueryText (_cli : SymbolsArgs) : String :=
  ("def")

/-- A `std::path::PathBuf` as the command sees it: the path text plus whether it
converts into a valid system path (`SystemPathBuf::from_path_buf` succeeds). -/
structure PathBuf where
  path : String
  isValidSystemPath : Bool
  deriving DecidableEq

/-- Embedding of `SystemPathBuf::from_path_buf`: the conversion that the command
unwraps with `expect`. -/
def fromPathBuf (p : PathBuf) : Option String :=
  if p.isValidSystemPath then some p.path else none

/-- The resolved configuration produced by `resolve`, reduced to the one field
the command reads (`settings.file_resolver.project_root`). -/
structure ResolvedConfig where
  project_root : PathBuf
  deriving DecidableEq

/-- The external collaborators of the symbols command: the outcome of
`resolve(config_arguments, None)`, the `OsSystem` file source rooted at a given
workspace root, and the outcome of `ProjectDatabase::new`. -/
structure SymbolsEnv where
  resolveResult : Except String ResolvedConfig
  system : String → FileSource
  dbResult : Except String Unit

/-- Embedding of `ExitStatus` from the `ruff` crate. -/
inductive ExitStatus where
  | Success
  | Failure
  | Error
  deriving DecidableEq

/-- Outcome of one run of the command: an error returned through `Result`, a
panic, or normal completion with an exit status and the printed lines. -/
inductive CommandResult where
  | err (e : String)
  | panicked (msg : String)
  | ok (exit : ExitStatus) (printed : List String)
  deriving DecidableEq

/-- The `Debug` rendering of a symbol kind, as `{:?}` prints it. -/
def kindRepr : SymbolKind → String
  | SymbolKind.function => ("Function")
  | SymbolKind.method => ("Method")
  | SymbolKind.classK => ("Class")
  | SymbolKind.module => ("Module")
  | SymbolKind.variableK => ("Variable")
  | SymbolKind.constant => ("Constant")

/-- Embedding of the `println!` format of `symbols.rs`: one rendered line per
result, showing kind, name, owning file and the start of the name range. -/
def renderLine (r : QueryResult) : String :=
  kindRepr r.symbol.kind ++ (" ") ++ r.symbol.name ++ (" at ") ++ r.file_id
    ++ (":") ++ Nat.repr r.symbol.rangeStart

/-- The store the command works with: constructed fresh per invocation. -/
def emptyStore (root : String) : ProjectSymbolStore :=
  ⟨root, []⟩

/-- Embedding of `symbols` from `crates/ruff/src/commands/symbols.rs`: resolve
the configuration (propagating its failure), unwrap the project root conversion
with `expect`, build the project database (propagating its failure), run the
workspace query with the fixed text of line 27, and print one line per result
before returning `ExitStatus::Success`. -/
def symbols (cli : SymbolsArgs) (env : SymbolsEnv) : CommandResult :=
  match env.resolveResult with
  | Except.error e => CommandResult.err e
  | Except.ok cfg =>
      match fromPathBuf cfg.project_root with
      | none => CommandResult.panicked ("project root is not a valid path")
      | some workspace_root =>
          match env.dbResult with
          | Except.error e => CommandResult.err e
          | Except.ok _ =>
              let src := env.system workspace_root
              let results := (query src (emptyStore workspace_root)
                (symbolsQueryText cli)).1
              CommandResult.ok ExitStatus.Success (results.map renderLine)

/-- A concrete parse tree: a top-level function `foo` containing a nested
function `bar`, followed by a block containing a top-level class `Baz`. -/
def wTree : SyntaxTree :=
  SyntaxTree.defNode ("foo") SymbolKind.function 0 12
    (SyntaxTree.defNode ("bar") SymbolKind.function 4 10 SyntaxTree.nil SyntaxTree.nil)
    (SyntaxTree.otherNode SyntaxTree.nil
      (SyntaxTree.defNode ("Baz") SymbolKind.classK 14 20 SyntaxTree.nil SyntaxTree.nil))

/-- A concrete parsed file holding one function definition `foo`. -/
def wParsedFoo : ParsedSource :=
  ⟨10, SyntaxTree.defNode ("foo") SymbolKind.function 4 7 SyntaxTree.nil SyntaxTree.nil⟩

/-- A file source with one file `a.py` that reads successfully. -/
def wSrcOne : FileSource :=
  ⟨[("a.py")], fun fid => if fid = ("a.py") then some wParsedFoo else none, fun _ => 0⟩

/-- A file source with the same single file whose read fails. -/
def wSrcFail : FileSource :=
  ⟨[("a.py")], fun _ => none, fun _ => 0⟩

/-- An empty store rooted at a concrete path. -/
def wStEmpty : ProjectSymbolStore :=
  ⟨("/proj"), []⟩

/-- A concrete cache entry for `a.py` at revision 0. -/
def wFs : FileSymbols :=
  ⟨("a.py"), 0, [⟨("foo"), SymbolKind.function, 4, 7⟩]⟩

/-- A store already holding the `a.py` entry at its current revision. -/
def wStCached : ProjectSymbolStore :=
  ⟨("/proj"), [(("a.py"), wFs)]⟩

/-- Concrete CLI arguments carrying no query string. -/
def wCli : SymbolsArgs := ⟨none⟩

/-- A resolved configuration whose project root is a valid system path. -/
def wCfg : ResolvedConfig := ⟨⟨("/proj"), true⟩⟩

/-- A resolved configuration whose project root is not a valid system path. -/
def wCfgBad : ResolvedConfig := ⟨⟨("/proj"), false⟩⟩

/-- A host system producing the single-file source for any root. -/
def wSys : String → FileSource := fun _ => wSrcOne

/-- A host system producing an empty project for any root. -/
def wSysEmpty : String → FileSource := fun _ => ⟨[], fun _ => none, fun _ => 0⟩

/-- An environment in which every collaborator succeeds. -/
def wEnvOk : SymbolsEnv := ⟨Except.ok wCfg, wSys, Except.ok ()⟩

/-- A successful environment over an empty project. -/
def wEnvEmpty : SymbolsEnv := ⟨Except.ok wCfg, wSysEmpty, Except.ok ()⟩

/-- An environment whose resolved project root is not a valid system path. -/
def wEnvBad : SymbolsEnv := ⟨Except.ok wCfgBad, wSysEmpty, Except.ok ()⟩

theorem countDefs_eq_top_add_nested (t : SyntaxTree) :
    countDefs t = countTop t + countNested t := by
  induction t with
  | nil => rfl
  | defNode n k s e cs next ihc ihn =>
      simp only [countDefs, countTop, countNested, ihn]
      omega
  | otherNode cs next ihc ihn =>
      simp only [countDefs, countTop, countNested, ihc, ihn]
      omega

theorem length_extractNodes (t : SyntaxTree) :
    (extractNodes t).length = countDefs t := by
  induction t with
  | nil => rfl
  | defNode n k s e cs next ihc ihn =>
      simp only [extractNodes, countDefs, List.length_cons, List.length_append, ihc, ihn]
      omega
  | otherNode cs next ihc ihn =>
      simp only [extractNodes, countDefs, List.length_append, ihc, ihn]

theorem wfTree_extract (len : Nat) (t : SyntaxTree) (hwf : wfTree len t = true) :
    ∀ r, r ∈ extractNodes t →
      r.name ≠ ("") ∧ r.rangeStart ≤ r.rangeEnd ∧ r.rangeEnd ≤ len := by
  induction t with
  | nil => intro r hr; cases hr
  | defNode n k s e cs next ihc ihn =>
      simp only [wfTree, Bool.and_eq_true, decide_eq_true_eq, Bool.not_eq_true'] at hwf
      obtain ⟨⟨⟨⟨hn, hse⟩, hel⟩, hc⟩, hx⟩ := hwf
      intro r hr
      simp only [extractNodes, List.mem_cons, List.mem_append] at hr
      rcases hr with hr | hr | hr
      · subst hr
        refine ⟨?_, hse, hel⟩
        intro hcon
        have hn' : n = ("") := hcon
        rw [hn'] at hn
        exact absurd hn (by simp [String.isEmpty])
      · exact ihc hc r hr
      · exact ihn hx r hr
  | otherNode cs next ihc ihn =>
      simp only [wfTree, Bool.and_eq_true] at hwf
      intro r hr
      simp only [extractNodes, List.mem_append] at hr
      rcases hr with hr | hr
      · exact ihc hwf.1 r hr
      · exact ihn hwf.2 r hr

theorem string_data_eq_nil {s : String} (h : s.data = []) : s = ("") := by
  cases s
  simp at h
  simp [h]

theorem lookupFile_replaceEntry_self (l : List (String × FileSymbols))
    (fid : String) (fs : FileSymbols) :
    lookupFile (replaceEntry l fid fs) fid = some fs := by
  induction l with
  | nil => simp [replaceEntry, lookupFile]
  | cons e rest ih =>
      by_cases h : e.1 = fid
      · simp [replaceEntry, h, lookupFile]
      · simp only [replaceEntry, if_neg h, lookupFile]
        exact ih

theorem lookupFile_replaceEntry_ne (l : List (String × FileSymbols))
    (fid g : String) (fs : FileSymbols) (hne : g ≠ fid) :
    lookupFile (replaceEntry l fid fs) g = lookupFile l g := by
  induction l with
  | nil => simp [replaceEntry, lookupFile, Ne.symm hne]
  | cons e rest ih =>
      by_cases h : e.1 = fid
      · simp only [replaceEntry, if_pos h, lookupFile]
        rw [if_neg (Ne.symm hne), if_neg (h ▸ Ne.symm hne)]
      · simp only [replaceEntry, if_neg h, lookupFile, ih]

theorem get_or_refresh_lookup_ne (src : FileSource) (st : ProjectSymbolStore)
    (fid g : String) (hne : g ≠ fid) :
    lookupFile ((get_or_refresh src st fid).2).files g = lookupFile st.files g := by
  unfold get_or_refresh
  cases hl : lookupFile st.files fid with
  | none => simp [lookupFile_replaceEntry_ne _ _ _ _ hne]
  | some fs =>
      by_cases hrev : fs.revision = src.rev fid
      · simp [hrev]
      · simp [hrev, lookupFile_replaceEntry_ne _ _ _ _ hne]

theorem extractEntry_congr (src src' : FileSource) (fid : String)
    (h1 : src'.read fid = src.read fid) (h2 : src'.rev fid = src.rev fid) :
    extractEntry src' fid = extractEntry src fid := by
  unfold extractEntry
  rw [h1, h2]

theorem get_or_refresh_fst_congr (src src' : FileSource)
    (st st' : ProjectSymbolStore) (fid : String)
    (h1 : src'.read fid = src.read fid) (h2 : src'.rev fid = src.rev fid)
    (h3 : lookupFile st'.files fid = lookupFile st.files fid) :
    (get_or_refresh src' st' fid).1 = (get_or_refresh src st fid).1 := by
  unfold get_or_refresh
  rw [h3]
  cases hl : lookupFile st.files fid with
  | none => simp [extractEntry_congr src src' fid h1 h2]
  | some fs =>
      by_cases hrev : fs.revision = src.rev fid
      · simp [h2, hrev]
      · simp [h2, hrev, extractEntry_congr src src' fid h1 h2]

theorem contribution_congr (src src' : FileSource)
    (st st' : ProjectSymbolStore) (text fid : String)
    (h1 : src'.read fid = src.read fid) (h2 : src'.rev fid = src.rev fid)
    (h3 : lookupFile st'.files fid = lookupFile st.files fid) :
    contribution src' st' text fid = contribution src st text fid := by
  unfold contribution
  rw [get_or_refresh_fst_congr src src' st st' fid h1 h2 h3]

theorem concatMap_congr {α β : Type} (f g : α → List β) (l : List α)
    (h : ∀ a, a ∈ l → f a = g a) : concatMap f l = concatMap g l := by
  induction l with
  | nil => rfl
  | cons a t ih =>
      simp only [concatMap]
      rw [h a (List.mem_cons_self a t), ih (fun x hx => h x (List.mem_cons_of_mem a hx))]

theorem mem_concatMap {α β : Type} (f : α → List β) (b : β) (l : List α) :
    b ∈ concatMap f l ↔ ∃ a, a ∈ l ∧ b ∈ f a := by
  induction l with
  | nil => simp [concatMap]
  | cons a t ih =>
      simp only [concatMap, List.mem_append, ih, List.mem_cons]
      constructor
      · rintro (hb | ⟨x, hx, hbx⟩)
        · exact ⟨a, Or.inl rfl, hb⟩
        · exact ⟨x, Or.inr hx, hbx⟩
      · rintro ⟨x, (rfl | hx), hbx⟩
        · exact Or.inl hbx
        · exact Or.inr ⟨x, hx, hbx⟩

theorem filter_concatMap {α β : Type} (p : β → Bool) (f : α → List β) (l : List α) :
    (concatMap f l).filter p = concatMap (fun a => (f a).filter p) l := by
  induction l with
  | nil => rfl
  | cons a t ih => simp only [concatMap, List.filter_append, ih]

theorem concatMap_eq_nil {α β : Type} (f : α → List β) (l : List α)
    (h : ∀ a, a ∈ l → f a = []) : concatMap f l = [] := by
  induction l with
  | nil => rfl
  | cons a t ih =>
      simp only [concatMap, h a (List.mem_cons_self a t), List.nil_append]
      exact ih (fun x hx => h x (List.mem_cons_of_mem a hx))

theorem concatMap_single {α β : Type} [DecidableEq α] (f : α → List β) (a0 : α)
    (l : List α) (hnd : l.Nodup) (hmem : a0 ∈ l)
    (hz : ∀ a, a ∈ l → a ≠ a0 → f a = []) : concatMap f l = f a0 := by
  induction l with
  | nil => cases hmem
  | cons a t ih =>
      rw [List.nodup_cons] at hnd
      rcases List.mem_cons.mp hmem with rfl | hmem'
      · simp only [concatMap]
        have ht : concatMap f t = [] :=
          concatMap_eq_nil f t (fun x hx =>
            hz x (List.mem_cons_of_mem a0 hx) (fun he => hnd.1 (he ▸ hx)))
        rw [ht, List.append_nil]
      · have hne : a ≠ a0 := fun he => hnd.1 (he ▸ hmem')
        simp only [concatMap, hz a (List.mem_cons_self a t) hne, List.nil_append]
        exact ih hnd.2 hmem' (fun x hx hxne => hz x (List.mem_cons_of_mem a hx) hxne)

theorem scanFiles_fst (src : FileSource) (text : String) (fids : List String) :
    ∀ st : ProjectSymbolStore, fids.Nodup →
      (scanFiles src text fids st).1 =
        concatMap (fun fid => contribution src st text fid) fids := by
  induction fids with
  | nil => intro st _; rfl
  | cons fid rest ih =>
      intro st h
      rw [List.nodup_cons] at h
      simp only [scanFiles, concatMap]
      rw [ih _ h.2]
      congr 1
      refine concatMap_congr _ _ rest (fun g hg => ?_)
      refine contribution_congr src src st _ text g rfl rfl ?_
      exact get_or_refresh_lookup_ne src st fid g (fun he => h.1 (he ▸ hg))

theorem sortedFileIds_nodup (src : FileSource) : (sortedFileIds src).Nodup :=
  (List.perm_insertionSort _ _).nodup_iff.mpr (List.nodup_dedup _)

theorem mem_sortedFileIds (src : FileSource) (fid : String) :
    fid ∈ sortedFileIds src ↔ fid ∈ src.files :=
  ((List.perm_insertionSort _ _).mem_iff).trans (List.mem_dedup)

theorem sortedFileIds_sorted (src : FileSource) :
    List.Sorted (fun a b : String => a ≤ b) (sortedFileIds src) :=
  List.sorted_insertionSort _ _

theorem query_fst (src : FileSource) (st : ProjectSymbolStore) (text : String) :
    (query src st text).1 =
      concatMap (fun fid => contribution src (refresh src st) text fid)
        (sortedFileIds src) :=
  scanFiles_fst src text (sortedFileIds src) (refresh src st) (sortedFileIds_nodup src)

theorem file_id_of_mem_contribution (src : FileSource) (st : ProjectSymbolStore)
    (text fid : String) (r : QueryResult) (hr : r ∈ contribution src st text fid) :
    r.file_id = fid := by
  unfold contribution at hr
  rcases List.mem_map.mp hr with ⟨x, _, rfl⟩
  rfl

theorem pairwise_file_id_le (f : String → List QueryResult) (fids : List String)
    (hs : List.Sorted (fun a b : String => a ≤ b) fids)
    (hf : ∀ g r, r ∈ f g → r.file_id = g) :
    List.Pairwise (fun a b : QueryResult => a.file_id ≤ b.file_id) (concatMap f fids) := by
  induction fids with
  | nil => exact List.Pairwise.nil
  | cons g rest ih =>
      rw [List.sorted_cons] at hs
      simp only [concatMap]
      rw [List.pairwise_append]
      refine ⟨?_, ih hs.2, ?_⟩
      · exact List.pairwise_of_forall_mem_list
          (fun a ha b hb => by rw [hf g a ha, hf g b hb])
      · intro a ha b hb
        rcases (mem_concatMap f b rest).mp hb with ⟨y, hy, hby⟩
        rw [hf g a ha, hf y b hby]
        exact hs.1 y hy

theorem isPrefixOf_iff_ex (n : List Char) :
    ∀ h : List Char, n.isPrefixOf h = true ↔ ∃ t, n ++ t = h := by
  induction n with
  | nil => intro h; simp [List.isPrefixOf]
  | cons a as ih =>
      intro h
      cases h with
      | nil => simp [List.isPrefixOf]
      | cons b bs =>
          simp only [List.isPrefixOf, Bool.and_eq_true, beq_iff_eq, ih bs,
            List.cons_append, List.cons.injEq]
          constructor
          · rintro ⟨rfl, t, rfl⟩
            exact ⟨t, rfl, rfl⟩
          · rintro ⟨t, rfl, rfl⟩
            exact ⟨rfl, t, rfl⟩

theorem strContains_iff (hay needle : List Char) :
    strContains hay needle = true ↔ ∃ pre post, pre ++ needle ++ post = hay := by
  induction hay with
  | nil =>
      simp only [strContains, List.isEmpty_iff]
      constructor
      · rintro rfl
        exact ⟨[], [], rfl⟩
      · rintro ⟨pre, post, h⟩
        have h1 := List.append_eq_nil.mp h
        exact (List.append_eq_nil.mp h1.1).2
  | cons c t ih =>
      simp only [strContains, Bool.or_eq_true, isPrefixOf_iff_ex, ih]
      constructor
      · rintro (⟨tt, htt⟩ | ⟨pre, post, hpp⟩)
        · exact ⟨[], tt, by simpa using htt⟩
        · exact ⟨c :: pre, post, by simp [hpp]⟩
      · rintro ⟨pre, post, hpp⟩
        cases pre with
        | nil => exact Or.inl ⟨post, by simpa using hpp⟩
        | cons c' pre' =>
            simp only [List.cons_append, List.cons.injEq] at hpp
            exact Or.inr ⟨pre', post, hpp.2⟩

theorem rmatches_iff (r : SymbolRecord) (text : String) :
    rmatches r text = true ↔
      text = ("") ∨ ∃ pre post, pre ++ text.data ++ post = r.name.data := by
  unfold rmatches
  rw [Bool.or_eq_true, strContains_iff]
  constructor
  · rintro (he | hc)
    · exact Or.inl (string_data_eq_nil (List.isEmpty_iff.mp he))
    · exact Or.inr hc
  · rintro (rfl | hc)
    · exact Or.inl (by simp)
    · exact Or.inr hc

theorem query_filter_fid (src : FileSource) (st : ProjectSymbolStore)
    (text : String) (fid : String) (hfid : fid ∈ src.files) :
    (((query src st text).1.filter (fun r => r.file_id == fid)).map
        (fun r => r.symbol))
      = (currentSymbols src (refresh src st) fid).filter (fun r => rmatches r text) := by
  rw [query_fst, filter_concatMap]
  rw [concatMap_single _ fid (sortedFileIds src) (sortedFileIds_nodup src)
    ((mem_sortedFileIds src fid).mpr hfid) ?hz]
  case hz =>
    intro g hg hne
    apply List.filter_eq_nil_iff.mpr
    intro r hr
    have hfg := file_id_of_mem_contribution src _ text g r hr
    simp [hfg, hne]
  rw [List.filter_eq_self.mpr ?hall]
  case hall =>
    intro r hr
    have hfg := file_id_of_mem_contribution src _ text fid r hr
    simp [hfg]
  unfold contribution currentSymbols
  rw [List.map_map]
  have hid : ((fun r : QueryResult => r.symbol) ∘
      fun r : SymbolRecord => (⟨fid, r⟩ : QueryResult)) = id := rfl
  rw [hid, List.map_id]

theorem rmatches_empty_text (r : SymbolRecord) : rmatches r ("") = true := rfl

/-- C7: every record the syntax extractor emits from (well-formed) file content
has a non-empty name and a range inside the bounds of the file content, and for
a file with N top-level and M nested definitions exactly N+M records are
emitted. -/
theorem extractor_record_invariants (len : Nat) (t : SyntaxTree)
    (hwf : wfTree len t = true) :
    (∀ r, r ∈ extractNodes t →
        r.name ≠ ("") ∧ r.rangeStart ≤ r.rangeEnd ∧ r.rangeEnd ≤ len)
    ∧ (extractNodes t).length = countTop t + countNested t :=
  ⟨wfTree_extract len t hwf,
    by rw [length_extractNodes, countDefs_eq_top_add_nested]⟩

theorem extractor_record_invariants_witness :
    wfTree 20 wTree = true
    ∧ (extractNodes wTree).length = countTop wTree + countNested wTree :=
  ⟨by decide, (extractor_record_invariants 20 wTree (by decide)).2⟩

/-- C6: `get_or_refresh` returns the cached entry unchanged (and does not
re-extract) when the cached revision equals the File Source's current revision;
when the entry is missing or its revision differs, the file is re-read and
re-extracted, the entry is replaced wholesale by the fresh extraction, and no
other file's entry is touched. -/
theorem cache_revision_behavior (src : FileSource) (st : ProjectSymbolStore)
    (fid : String) :
    (∀ fs, lookupFile st.files fid = some fs → fs.revision = src.rev fid →
        get_or_refresh src st fid = ((fs, false), st))
    ∧ ((lookupFile st.files fid = none ∨
          ∃ fs, lookupFile st.files fid = some fs ∧ fs.revision ≠ src.rev fid) →
        (get_or_refresh src st fid).1 = (extractEntry src fid, true)
        ∧ lookupFile ((get_or_refresh src st fid).2).files fid
            = some (extractEntry src fid)
        ∧ ∀ g, g ≠ fid →
            lookupFile ((get_or_refresh src st fid).2).files g
              = lookupFile st.files g) := by
  constructor
  · intro fs hl hrev
    simp [get_or_refresh, hl, hrev]
  · intro h
    rcases h with hl | ⟨fs, hl, hrev⟩
    · exact ⟨by simp [get_or_refresh, hl],
        by simp [get_or_refresh, hl, lookupFile_replaceEntry_self],
        fun g hg => get_or_refresh_lookup_ne src st fid g hg⟩
    · exact ⟨by simp [get_or_refresh, hl, hrev],
        by simp [get_or_refresh, hl, hrev, lookupFile_replaceEntry_self],
        fun g hg => get_or_refresh_lookup_ne src st fid g hg⟩

theorem cache_revision_behavior_witness :
    get_or_refresh wSrcFail wStCached ("a.py") = ((wFs, false), wStCached) :=
  (cache_revision_behavior wSrcFail wStCached ("a.py")).1 wFs (by decide) rfl

/-- C2: the query result sequence is ordered with primary key the file path
(lexicographically); within each file of the project, the results restricted to
that file are exactly its symbol records that match, in the file's source
order; and with the empty query text they are exactly all of its symbol
records, in source order. -/
theorem query_result_ordering (src : FileSource) (st : ProjectSymbolStore)
    (text : String) :
    List.Pairwise (fun a b : QueryResult => a.file_id ≤ b.file_id)
      ((query src st text).1)
    ∧ (∀ fid, fid ∈ src.files →
        (((query src st text).1.filter (fun r => r.file_id == fid)).map
            (fun r => r.symbol))
          = (currentSymbols src (refresh src st) fid).filter
              (fun r => rmatches r text))
    ∧ (text = ("") → ∀ fid, fid ∈ src.files →
        (((query src st text).1.filter (fun r => r.file_id == fid)).map
            (fun r => r.symbol))
          = currentSymbols src (refresh src st) fid) := by
  refine ⟨?_, fun fid hfid => query_filter_fid src st text fid hfid, ?_⟩
  · rw [query_fst]
    exact pairwise_file_id_le _ (sortedFileIds src) (sortedFileIds_sorted src)
      (fun g r hr => file_id_of_mem_contribution src _ text g r hr)
  · intro ht fid hfid
    subst ht
    rw [query_filter_fid src st ("") fid hfid]
    exact List.filter_eq_self.mpr (fun r _ => rmatches_empty_text r)

theorem query_result_ordering_witness :
    List.Pairwise (fun a b : QueryResult => a.file_id ≤ b.file_id)
      ((query wSrcOne wStEmpty ("")).1)
    ∧ (((query wSrcOne wStEmpty ("")).1.filter
          (fun r => r.file_id == ("a.py"))).map (fun r => r.symbol))
        = currentSymbols wSrcOne (refresh wSrcOne wStEmpty) ("a.py") :=
  ⟨(query_result_ordering wSrcOne wStEmpty ("")).1,
   (query_result_ordering wSrcOne wStEmpty ("")).2.2 rfl ("a.py") (by decide)⟩

/-- C3: a record matches the query text iff the text is empty or the record's
name contains it as a case-sensitive substring; and a query whose text is
contained in no symbol name of the project returns the empty sequence. -/
theorem query_matching_policy :
    (∀ (r : SymbolRecord) (text : String),
        rmatches r text = true ↔
          text = ("") ∨ ∃ pre post, pre ++ text.data ++ post = r.name.data)
    ∧ ∀ (src : FileSource) (st : ProjectSymbolStore) (text : String),
        (∀ fid, fid ∈ src.files →
          ∀ r, r ∈ currentSymbols src (refresh src st) fid →
            ¬ ∃ pre post, pre ++ text.data ++ post = r.name.data) →
        (query src st text).1 = [] := by
  refine ⟨rmatches_iff, ?_⟩
  intro src st text h
  rw [query_fst]
  apply concatMap_eq_nil
  intro fid hfid
  have hfid' := (mem_sortedFileIds src fid).mp hfid
  have hnil : (currentSymbols src (refresh src st) fid).filter
      (fun r => rmatches r text) = [] := by
    apply List.filter_eq_nil_iff.mpr
    intro r hr hmt
    rcases (rmatches_iff r text).mp hmt with rfl | hex
    · exact h fid hfid' r hr ⟨r.name.data, [], by simp⟩
    · exact h fid hfid' r hr hex
  have hnil' : (get_or_refresh src (refresh src st) fid).1.1.symbols.filter
      (fun r => rmatches r text) = [] := hnil
  unfold contribution
  rw [hnil']
  rfl

theorem query_matching_policy_witness :
    (query wSrcOne wStEmpty ("zzz")).1 = [] := by
  apply query_matching_policy.2 wSrcOne wStEmpty ("zzz")
  intro fid hfid r hr hex
  have hfid' : fid = ("a.py") := by simpa [wSrcOne] using hfid
  subst hfid'
  have hcs : currentSymbols wSrcOne (refresh wSrcOne wStEmpty) ("a.py")
      = [⟨("foo"), SymbolKind.function, 4, 7⟩] := by decide
  rw [hcs] at hr
  have hr' : r = ⟨("foo"), SymbolKind.function, 4, 7⟩ := by simpa using hr
  subst hr'
  exact absurd ((strContains_iff _ _).mpr hex) (by decide)

/-- C5: a per-file read failure never aborts the workspace query: the failing
file contributes zero symbols, and every other file contributes exactly what it
would contribute were that file readable, so the scan proceeds across the rest
of the project. -/
theorem per_file_failure_isolated (src src' : FileSource)
    (st : ProjectSymbolStore) (text fid : String)
    (hfiles : src'.files = src.files)
    (hread : ∀ g, g ≠ fid → src'.read g = src.read g)
    (hrev : ∀ g, src'.rev g = src.rev g)
    (hfail : src.read fid = none)
    (hstale : ∀ fs, lookupFile (refresh src st).files fid = some fs →
        fs.revision ≠ src.rev fid) :
    contribution src (refresh src st) text fid = []
    ∧ (query src st text).1 =
        ((query src' st text).1).filter (fun r => !(r.file_id == fid)) := by
  have hcontrib : contribution src (refresh src st) text fid = [] := by
    cases hl : lookupFile (refresh src st).files fid with
    | none => simp [contribution, get_or_refresh, hl, extractEntry, hfail]
    | some fs =>
        simp [contribution, get_or_refresh, hl, hstale fs hl, extractEntry, hfail]
  refine ⟨hcontrib, ?_⟩
  have hrefresh : refresh src' st = refresh src st := by
    unfold refresh
    rw [hfiles]
  have hsorted : sortedFileIds src' = sortedFileIds src := by
    unfold sortedFileIds
    rw [hfiles]
  rw [query_fst, query_fst, filter_concatMap, hrefresh, hsorted]
  apply concatMap_congr
  intro g hg
  by_cases hgf : g = fid
  · subst hgf
    rw [hcontrib]
    refine (List.filter_eq_nil_iff.mpr ?_).symm
    intro r hr
    rw [file_id_of_mem_contribution src' _ text g r hr]
    simp
  · have hcg : contribution src' (refresh src st) text g
        = contribution src (refresh src st) text g :=
      contribution_congr src src' (refresh src st) (refresh src st) text g
        (hread g hgf) (hrev g) rfl
    rw [hcg]
    refine (List.filter_eq_self.mpr ?_).symm
    intro r hr
    rw [file_id_of_mem_contribution src _ text g r hr]
    simp [hgf]

theorem per_file_failure_isolated_witness :
    contribution wSrcFail (refresh wSrcFail wStEmpty) ("") ("a.py") = []
    ∧ (query wSrcFail wStEmpty ("")).1 =
        ((query wSrcOne wStEmpty ("")).1).filter
          (fun r => !(r.file_id == ("a.py"))) :=
  per_file_failure_isolated wSrcFail wSrcOne wStEmpty ("") ("a.py") rfl
    (fun g hg => by simp [wSrcOne, wSrcFail, hg]) (fun g => rfl) rfl
    (fun fs hfs => by simp [refresh, wStEmpty, lookupFile] at hfs)

/-- C4: when configuration resolution fails, the symbols command returns that
failure to the caller unchanged, whatever the remaining collaborators would
have done: no project database is consulted and nothing is printed. -/
theorem resolve_failure_is_fatal (cli : SymbolsArgs) (sysF : String → FileSource)
    (dbr : Except String Unit) (e : String) :
    symbols cli ⟨Except.error e, sysF, dbr⟩ = CommandResult.err e := rfl

/-- C8: on a successful run the command prints exactly one rendered line per
query result, in the order of the result sequence, each line showing the
result's kind, name, owning file and source position. -/
theorem command_renders_each_result (cli : SymbolsArgs) (env : SymbolsEnv)
    (cfg : ResolvedConfig) (root : String)
    (h1 : env.resolveResult = Except.ok cfg)
    (h2 : fromPathBuf cfg.project_root = some root)
    (h3 : env.dbResult = Except.ok ()) :
    symbols cli env = CommandResult.ok ExitStatus.Success
        (((query (env.system root) (emptyStore root) (symbolsQueryText cli)).1).map
          renderLine)
    ∧ (∀ i, ((((query (env.system root) (emptyStore root)
            (symbolsQueryText cli)).1).map renderLine).get? i)
          = (((query (env.system root) (emptyStore root)
              (symbolsQueryText cli)).1).get? i).map renderLine)
    ∧ ∀ r : QueryResult, renderLine r =
        kindRepr r.symbol.kind ++ (" ") ++ r.symbol.name ++ (" at ") ++ r.file_id
          ++ (":") ++ Nat.repr r.symbol.rangeStart := by
  refine ⟨?_, fun i => List.get?_map renderLine _ i, fun r => rfl⟩
  simp [symbols, h1, h2, h3]

theorem command_renders_each_result_witness :
    symbols wCli wEnvOk = CommandResult.ok ExitStatus.Success
        (((query (wEnvOk.system ("/proj")) (emptyStore ("/proj"))
            (symbolsQueryText wCli)).1).map renderLine)
    ∧ (∀ i, ((((query (wEnvOk.system ("/proj")) (emptyStore ("/proj"))
            (symbolsQueryText wCli)).1).map renderLine).get? i)
          = (((query (wEnvOk.system ("/proj")) (emptyStore ("/proj"))
              (symbolsQueryText wCli)).1).get? i).map renderLine)
    ∧ ∀ r : QueryResult, renderLine r =
        kindRepr r.symbol.kind ++ (" ") ++ r.symbol.name ++ (" at ") ++ r.file_id
          ++ (":") ++ Nat.repr r.symbol.rangeStart :=
  command_renders_each_result wCli wEnvOk wCfg ("/proj") rfl rfl rfl

/-- C9: on an empty project the query returns the empty sequence for any text,
and the command completes with the success exit status having printed
nothing. -/
theorem empty_project_success (cli : SymbolsArgs) (env : SymbolsEnv)
    (cfg : ResolvedConfig) (root : String)
    (h1 : env.resolveResult = Except.ok cfg)
    (h2 : fromPathBuf cfg.project_root = some root)
    (h3 : env.dbResult = Except.ok ())
    (hempty : (env.system root).files = []) :
    (∀ text, (query (env.system root) (emptyStore root) text).1 = [])
    ∧ symbols cli env = CommandResult.ok ExitStatus.Success [] := by
  have hq : ∀ text, (query (env.system root) (emptyStore root) text).1 = [] := by
    intro text
    rw [query_fst]
    have hs : sortedFileIds (env.system root) = [] := by
      unfold sortedFileIds
      rw [hempty]
      rfl
    rw [hs]
    rfl
  refine ⟨hq, ?_⟩
  simp [symbols, h1, h2, h3, hq]

theorem empty_project_success_witness :
    (∀ text, (query (wEnvEmpty.system ("/proj")) (emptyStore ("/proj")) text).1 = [])
    ∧ symbols wCli wEnvEmpty = CommandResult.ok ExitStatus.Success [] :=
  empty_project_success wCli wEnvEmpty wCfg ("/proj") rfl rfl rfl rfl

/-- C10: when the resolved project root does not convert into a valid system
path the command panics with the `expect` message instead of returning an
error; when it does convert, the command never panics. -/
theorem invalid_root_panic_behavior (cli : SymbolsArgs) (env : SymbolsEnv)
    (cfg : ResolvedConfig) :
    (env.resolveResult = Except.ok cfg →
        cfg.project_root.isValidSystemPath = false →
        symbols cli env = CommandResult.panicked
          ("project root is not a valid path"))
    ∧ (env.resolveResult = Except.ok cfg →
        cfg.project_root.isValidSystemPath = true →
        ∀ msg, symbols cli env ≠ CommandResult.panicked msg) := by
  constructor
  · intro h1 hv
    simp [symbols, h1, fromPathBuf, hv]
  · intro h1 hv msg
    cases hdb : env.dbResult with
    | error e => simp [symbols, h1, fromPathBuf, hv, hdb]
    | ok u => simp [symbols, h1, fromPathBuf, hv, hdb]

theorem invalid_root_panic_behavior_witness :
    symbols wCli wEnvBad = CommandResult.panicked
      ("project root is not a valid path") :=
  (invalid_root_panic_behavior wCli wEnvBad wCfgBad).1 rfl rfl

/-- C1 counterexample: the command does not pass the query text carried by the
CLI arguments — with `SymbolsArgs` carrying the query string `foo`, the text
handed to the workspace query engine differs from it. -/
theorem symbols_query_text_not_from_args :
    symbolsQueryText ⟨some ("foo")⟩ ≠ cliQueryText ⟨some ("foo")⟩ := by decide

/-- C1 (amended): the query text the symbols command hands to the workspace
query engine is the fixed constant `def`, ignoring the `SymbolsArgs` entirely —
the command's outcome does not depend on the CLI arguments. -/
theorem symbols_query_text_fixed (cli cli' : SymbolsArgs) (env : SymbolsEnv) :
    symbolsQueryText cli = ("def") ∧ symbols cli env = symbols cli' env :=
  ⟨rfl, rfl⟩
